import Mathlib

/-!
Shallow embedding of the subnet-partitioning core of the repository
(src/net.rs and src/task.rs). Machine words of the two address families
(32-bit and 128-bit) are represented as natural numbers below 2 ^ W with
the width W passed explicitly; Rust's checked (debug) arithmetic —
shift amounts reaching the width, subtraction below zero, addition past
the maximal word, the explicit "CIDR to big" panic — is modelled with
the Except monad.
-/

namespace Subnetting

/-- Failure conditions of the source, which reports them as panics: the
explicit check in GenNet::new ("CIDR to big"), and the checked arithmetic
panics (shift with amount at least the width, subtraction below zero,
addition past the maximal word, u32 power overflow). -/
inductive NetError where
  | invalidCidr : NetError
  | overflow : NetError
deriving DecidableEq

/-- Unsigned subtraction as in the source: underflow panics. -/
def subChecked (a b : Nat) : Except NetError Nat :=
  if a < b then .error .overflow else .ok (a - b)

/-- Left shift of a W-bit word: a shift amount of at least W panics. -/
def shlChecked (W x n : Nat) : Except NetError Nat :=
  if W ≤ n then .error .overflow else .ok ((x <<< n) % 2 ^ W)

/-- Addition of W-bit words: a result past the maximal word panics. -/
def addChecked (W a b : Nat) : Except NetError Nat :=
  if 2 ^ W ≤ a + b then .error .overflow else .ok (a + b)

/-- Bitwise NOT on a W-bit word. -/
def wordNot (W x : Nat) : Nat := 2 ^ W - 1 - x

/-- Embeds sn_from_cidr_gen_bits from src/net.rs:
Ip::Bits::MAX << (Ip::Bits::BITS - cidr), with the u8 subtraction and the
shift both checked as in the source. -/
def sn_from_cidr_gen_bits (W cidr : Nat) : Except NetError Nat := do
  let sh ← subChecked W cidr
  shlChecked W (2 ^ W - 1) sh

/-- Embeds na_from_ip_and_cidr_gen from src/net.rs. -/
def na_from_ip_and_cidr_gen (W ip cidr : Nat) : Except NetError Nat := do
  let m ← sn_from_cidr_gen_bits W cidr
  pure (ip &&& m)

/-- Embeds bc_from_ip_and_cidr_gen from src/net.rs. -/
def bc_from_ip_and_cidr_gen (W ip cidr : Nat) : Except NetError Nat := do
  let m ← sn_from_cidr_gen_bits W cidr
  pure (ip ||| wordNot W m)

/-- Embeds V4::calc_subnet_address and V6::calc_subnet_address from
src/net.rs (one formula, instantiated at W = 32 and W = 128). -/
def calc_subnet_address (W sna sn target_cidr net_idx : Nat) :
    Except NetError Nat := do
  let m ← sn_from_cidr_gen_bits W target_cidr
  let mask := wordNot W sn &&& m
  let sh ← subChecked W target_cidr
  let num ← shlChecked W net_idx sh
  pure ((num &&& mask) ||| sna)

/-- Embeds the GenNet struct from src/net.rs, addresses as W-bit words. -/
structure GenNet where
  initial_ip : Nat
  na : Nat
  bc : Nat
  host_from : Nat
  host_until : Nat
  cidr : Nat
deriving DecidableEq

/-- Embeds GenNet::new from src/net.rs. -/
def GenNet.new (W ip cidr : Nat) : Except NetError GenNet := do
  if W < cidr then
    throw .invalidCidr
  let na ← na_from_ip_and_cidr_gen W ip cidr
  let bc ← bc_from_ip_and_cidr_gen W na cidr
  let hfrom ← addChecked W na 1
  let huntil ← subChecked bc 1
  pure { initial_ip := ip, na := na, bc := bc, host_from := hfrom,
         host_until := huntil, cidr := cidr }

/-- Embeds GenNet::host from src/net.rs. -/
def GenNet.host (n : GenNet) : Nat × Nat := (n.host_from, n.host_until)

/-- Embeds GenNet::subnetmask_bits from src/net.rs. -/
def GenNet.subnetmask_bits (W : Nat) (n : GenNet) : Except NetError Nat :=
  sn_from_cidr_gen_bits W n.cidr

/-- Fuel-driven floor base-2 logarithm; the fuel makes it reduce under
kernel evaluation (it agrees with Nat.log2, proved below). -/
def ilog2Go : Nat → Nat → Nat
  | 0, _ => 0
  | fuel + 1, n => if 2 ≤ n then ilog2Go fuel (n / 2) + 1 else 0

/-- Models u32::ilog2, the floor of the base-2 logarithm. -/
def ilog2 (n : Nat) : Nat := ilog2Go n n

/-- Models u32::is_power_of_two on values below 2 ^ 32. -/
def is_power_of_two (n : Nat) : Bool := decide (∃ k < 32, 2 ^ k = n)

/-- Models u32::next_power_of_two: the least power of two at least self;
the source panics (debug) when that power does not fit in 32 bits. -/
def next_power_of_two (n : Nat) : Except NetError Nat :=
  if n ≤ 1 then .ok 1
  else if n ≤ 2 ^ 31 then .ok (2 ^ (ilog2 (n - 1) + 1))
  else .error .overflow

/-- Embeds the Task struct from src/task.rs (subnets is a u32). -/
structure Task where
  network : GenNet
  subnets : Nat

/-- The rounding let-binding of Task::target_cidr: the count itself when a
power of two, the next power of two otherwise. -/
def round_count (n : Nat) : Except NetError Nat :=
  if is_power_of_two n then pure n else next_power_of_two n

/-- Embeds Task::target_cidr from src/task.rs. The u8 conversion of the
logarithm never fails (the value is at most 31) so the unwrap_or branch of
the source is dead, and the final u8 addition cannot overflow for any
constructible network; ilog2 panics on zero, which the rounding rules out. -/
def Task.target_cidr (t : Task) : Except NetError Nat := do
  let num ← round_count t.subnets
  if num = 0 then
    throw .overflow
  pure (ilog2 num + t.network.cidr)

/-- Embeds Task::new_subnets from src/task.rs: 2u32.pow(target_cidr - cidr),
whose u32 power panics when the exponent reaches 32. -/
def Task.new_subnets (t : Task) : Except NetError Nat := do
  let tc ← t.target_cidr
  let d := tc - t.network.cidr
  if 32 ≤ d then
    throw .overflow
  pure (2 ^ d)

/-- The accumulation loop of Task::target_networks: one GenNet per index,
stopping at the first panic. -/
def build_nets (W sna sn tcidr : Nat) : List Nat → Except NetError (List GenNet)
  | [] => .ok []
  | i :: rest => do
    let na ← calc_subnet_address W sna sn tcidr i
    let net ← GenNet.new W na tcidr
    let nets ← build_nets W sna sn tcidr rest
    pure (net :: nets)

/-- Embeds Task::target_networks from src/task.rs: Net::Bits::pow computes
2 ^ (target_cidr - cidr) through u32::pow (for both families), and the loop
builds one network per index from calc_subnet_address. -/
def Task.target_networks (W : Nat) (t : Task) : Except NetError (List GenNet) := do
  let tcidr ← t.target_cidr
  let sna := t.network.na
  let d := tcidr - t.network.cidr
  if 32 ≤ d then
    throw .overflow
  let networks := 2 ^ d
  let sn ← sn_from_cidr_gen_bits W t.network.cidr
  build_nets W sna sn tcidr (List.range networks)

/-! Arithmetic and bitwise groundwork. -/

theorem bind_ok_eq {ε α β : Type} (a : α) (f : α → Except ε β) :
    (Except.ok a : Except ε α) >>= f = f a := rfl

theorem bind_error_eq {ε α β : Type} (e : ε) (f : α → Except ε β) :
    (Except.error e : Except ε α) >>= f = Except.error e := rfl

theorem pure_eq_ok {ε α : Type} (a : α) : (pure a : Except ε α) = .ok a := rfl

theorem throw_eq_error {ε α : Type} (e : ε) :
    (throw e : Except ε α) = .error e := rfl

theorem two_pow_pos (n : Nat) : 0 < 2 ^ n := Nat.pos_pow_of_pos n (by omega)

theorem two_pow_le_two_pow {a b : Nat} (h : a ≤ b) : 2 ^ a ≤ 2 ^ b :=
  Nat.pow_le_pow_right (by omega) h

/-- A block value (M - 1) * B taken modulo M, for B dividing... in fact for
any B at most M it reduces to M - B. -/
theorem mod_block (M B : Nat) (h1 : 1 ≤ B) (h2 : B ≤ M) :
    (M - 1) * B % M = M - B := by
  obtain ⟨P, hP⟩ : ∃ P, P = M * B := ⟨_, rfl⟩
  have e1 : (M - 1) * B = P - B := by rw [hP, Nat.sub_mul, one_mul]
  have e2 : (B - 1) * M = P - M := by
    rw [hP, Nat.mul_comm M B, Nat.sub_mul, one_mul]
  have h4 : M ≤ P := by
    rw [hP]
    exact Nat.le_mul_of_pos_right _ (by omega)
  have h5 : B ≤ P := by
    rw [hP]
    exact Nat.le_mul_of_pos_left _ (by omega)
  have key : (M - 1) * B = (M - B) + (B - 1) * M := by
    rw [e1, e2]
    omega
  rw [key, Nat.add_mul_mod_self_right, Nat.mod_eq_of_lt (by omega)]

/-- Value of MAX shifted left by s on a W-bit word. -/
theorem max_shl_mod (W s : Nat) (hs : s ≤ W) :
    ((2 ^ W - 1) <<< s) % 2 ^ W = 2 ^ W - 2 ^ s := by
  rw [Nat.shiftLeft_eq]
  exact mod_block (2 ^ W) (2 ^ s) (two_pow_pos s) (two_pow_le_two_pow hs)

/-- The subnet mask with c leading ones factors as a shifted block of ones. -/
theorem mask_factor {c W : Nat} (h : c ≤ W) :
    2 ^ W - 2 ^ (W - c) = (2 ^ c - 1) * 2 ^ (W - c) := by
  rw [Nat.sub_mul, one_mul, ← Nat.pow_add]
  congr 2
  omega

theorem wordNot_mask {c W : Nat} (h : c ≤ W) :
    wordNot W (2 ^ W - 2 ^ (W - c)) = 2 ^ (W - c) - 1 := by
  have hPM : 2 ^ (W - c) ≤ 2 ^ W := two_pow_le_two_pow (by omega)
  unfold wordNot
  omega

/-- AND against a contiguous block of c ones starting at bit s, as division
and remainder arithmetic. -/
theorem and_block_mask (x c s : Nat) :
    x &&& (2 ^ c - 1) * 2 ^ s = x / 2 ^ s % 2 ^ c * 2 ^ s := by
  apply Nat.eq_of_testBit_eq
  intro j
  have e1 : (2 ^ c - 1) * 2 ^ s = (2 ^ c - 1) <<< s := (Nat.shiftLeft_eq _ _).symm
  have e2 : x / 2 ^ s % 2 ^ c * 2 ^ s = ((x >>> s) % 2 ^ c) <<< s := by
    rw [Nat.shiftLeft_eq, Nat.shiftRight_eq_div_pow]
  rw [Nat.testBit_and, e1, e2, Nat.testBit_shiftLeft, Nat.testBit_shiftLeft,
    Nat.testBit_mod_two_pow, Nat.testBit_two_pow_sub_one, Nat.testBit_shiftRight]
  by_cases hjs : s ≤ j
  · have h1 : j ≥ s := hjs
    have h2 : s + (j - s) = j := by omega
    simp only [h1, decide_True, Bool.true_and, h2, ge_iff_le]
    cases hx : x.testBit j <;> cases hd : decide (j - s < c) <;> simp
  · have h1 : ¬ j ≥ s := hjs
    simp [h1]

/-- OR of values occupying disjoint bit blocks is addition. -/
theorem mul_pow_lor_eq_add (a b s : Nat) (hb : b < 2 ^ s) :
    a * 2 ^ s ||| b = a * 2 ^ s + b := by
  apply Nat.eq_of_testBit_eq
  intro j
  have hsum : (2 ^ s * a + b).testBit j =
      if j < s then b.testBit j else a.testBit (j - s) :=
    Nat.testBit_mul_pow_two_add a hb j
  have e1 : a * 2 ^ s = 2 ^ s * a := Nat.mul_comm _ _
  have e2 : a * 2 ^ s = a <<< s := (Nat.shiftLeft_eq _ _).symm
  rw [Nat.testBit_or, e1, hsum, ← e1, e2, Nat.testBit_shiftLeft]
  by_cases hj : j < s
  · have h1 : ¬ j ≥ s := by omega
    simp [hj, h1]
  · have h1 : j ≥ s := by omega
    have hbj : b.testBit j = false :=
      Nat.testBit_lt_two_pow (Nat.lt_of_lt_of_le hb (two_pow_le_two_pow (by omega)))
    simp [hj, h1, hbj]

/-- Dividing a block of ones by a power of two below it. -/
theorem two_pow_sub_one_div {a s : Nat} (h : s ≤ a) :
    (2 ^ a - 1) / 2 ^ s = 2 ^ (a - s) - 1 := by
  obtain ⟨P, hP⟩ : ∃ P, P = 2 ^ s * (2 ^ (a - s) - 1) := ⟨_, rfl⟩
  have e1 : P = 2 ^ s * 2 ^ (a - s) - 2 ^ s := by
    rw [hP, Nat.mul_comm, Nat.sub_mul, one_mul, Nat.mul_comm]
  have e2 : 2 ^ s * 2 ^ (a - s) = 2 ^ a := by
    rw [← Nat.pow_add]
    congr 1
    omega
  have h3 : 2 ^ s ≤ 2 ^ a := two_pow_le_two_pow h
  have h4 : 0 < 2 ^ s := two_pow_pos s
  have h5 : 0 < 2 ^ (a - s) := two_pow_pos _
  have key : 2 ^ a - 1 = P + (2 ^ s - 1) := by omega
  rw [key, hP, Nat.mul_add_div (two_pow_pos s), Nat.div_eq_of_lt (by omega)]
  omega

/-- The subnet mask computation succeeds on 1 ≤ cidr ≤ W and yields the
word with cidr leading ones. -/
theorem sn_ok {W c : Nat} (h1 : 1 ≤ c) (h2 : c ≤ W) :
    sn_from_cidr_gen_bits W c = .ok (2 ^ W - 2 ^ (W - c)) := by
  unfold sn_from_cidr_gen_bits subChecked
  rw [if_neg (by omega), bind_ok_eq]
  unfold shlChecked
  rw [if_neg (by omega)]
  rw [max_shl_mod W (W - c) (by omega)]

/-- Inversion: a successful subnet mask computation bounds the cidr. -/
theorem sn_ok_inv {W c m : Nat} (h : sn_from_cidr_gen_bits W c = .ok m) :
    1 ≤ c ∧ c ≤ W ∧ m = 2 ^ W - 2 ^ (W - c) := by
  by_cases hcW : W < c
  · unfold sn_from_cidr_gen_bits subChecked at h
    rw [if_pos (by omega), bind_error_eq] at h
    exact Except.noConfusion h
  · by_cases hc0 : c = 0
    · subst hc0
      unfold sn_from_cidr_gen_bits subChecked at h
      rw [if_neg (by omega), bind_ok_eq] at h
      unfold shlChecked at h
      rw [if_pos (by omega)] at h
      exact Except.noConfusion h
    · rw [sn_ok (by omega) (by omega)] at h
      have := Except.ok.inj h
      omega

/-- AND of an address against the subnet mask rounds it down to the network
boundary. -/
theorem and_mask_eq {W ip c : Nat} (hip : ip < 2 ^ W) (hc : c ≤ W) :
    ip &&& (2 ^ W - 2 ^ (W - c)) = ip / 2 ^ (W - c) * 2 ^ (W - c) := by
  rw [mask_factor hc, and_block_mask]
  have hlt : ip / 2 ^ (W - c) < 2 ^ c := by
    rw [Nat.div_lt_iff_lt_mul (two_pow_pos _), ← Nat.pow_add]
    calc ip < 2 ^ W := hip
    _ ≤ 2 ^ (c + (W - c)) := two_pow_le_two_pow (by omega)
  rw [Nat.mod_eq_of_lt hlt]

/-- Computing the network address: AND with the subnet mask. -/
theorem na_ok {W ip c : Nat} (h1 : 1 ≤ c) (h2 : c ≤ W) (hip : ip < 2 ^ W) :
    na_from_ip_and_cidr_gen W ip c =
      .ok (ip / 2 ^ (W - c) * 2 ^ (W - c)) := by
  unfold na_from_ip_and_cidr_gen
  simp only [sn_ok h1 h2, bind_ok_eq, pure_eq_ok, and_mask_eq hip h2]

/-- Computing the broadcast address: OR with the complemented mask. -/
theorem bc_ok {W x c : Nat} (h1 : 1 ≤ c) (h2 : c ≤ W) :
    bc_from_ip_and_cidr_gen W x c = .ok (x ||| (2 ^ (W - c) - 1)) := by
  unfold bc_from_ip_and_cidr_gen
  simp only [sn_ok h1 h2, bind_ok_eq, pure_eq_ok, wordNot_mask h2]

/-- Successful construction of a network, with all derived fields. -/
theorem new_ok {W ip c : Nat} (h1 : 1 ≤ c) (h2 : c ≤ W) (hip : ip < 2 ^ W)
    (hfrom : ip / 2 ^ (W - c) * 2 ^ (W - c) + 1 < 2 ^ W)
    (huntil : 1 ≤ ip / 2 ^ (W - c) * 2 ^ (W - c) + (2 ^ (W - c) - 1)) :
    GenNet.new W ip c = .ok
      { initial_ip := ip,
        na := ip / 2 ^ (W - c) * 2 ^ (W - c),
        bc := ip / 2 ^ (W - c) * 2 ^ (W - c) + (2 ^ (W - c) - 1),
        host_from := ip / 2 ^ (W - c) * 2 ^ (W - c) + 1,
        host_until := ip / 2 ^ (W - c) * 2 ^ (W - c) + (2 ^ (W - c) - 1) - 1,
        cidr := c } := by
  unfold GenNet.new
  rw [if_neg (by omega)]
  simp only [na_ok h1 h2 hip, bind_ok_eq, bc_ok h1 h2,
    mul_pow_lor_eq_add (ip / 2 ^ (W - c)) (2 ^ (W - c) - 1) (W - c)
      (by have := two_pow_pos (W - c); omega)]
  unfold addChecked
  rw [if_neg (by omega)]
  simp only [bind_ok_eq]
  unfold subChecked
  rw [if_neg (by omega)]
  simp only [bind_ok_eq, pure_eq_ok]

/-- Inversion of a successful construction: the cidr is in range and every
field is determined. -/
theorem new_ok_inv {W ip c : Nat} (hip : ip < 2 ^ W) {net : GenNet}
    (h : GenNet.new W ip c = .ok net) :
    1 ≤ c ∧ c ≤ W ∧
    net.initial_ip = ip ∧
    net.na = ip / 2 ^ (W - c) * 2 ^ (W - c) ∧
    net.bc = net.na + (2 ^ (W - c) - 1) ∧
    net.host_from = net.na + 1 ∧
    net.host_until = net.bc - 1 ∧
    net.cidr = c ∧
    net.na + 1 < 2 ^ W ∧ 1 ≤ net.bc := by
  have hcW : ¬ W < c := by
    intro hlt
    unfold GenNet.new at h
    rw [if_pos hlt] at h
    exact Except.noConfusion h
  have hc1 : 1 ≤ c := by
    by_contra hc0
    have hc : c = 0 := by omega
    subst hc
    unfold GenNet.new at h
    rw [if_neg hcW] at h
    unfold na_from_ip_and_cidr_gen at h
    unfold sn_from_cidr_gen_bits subChecked at h
    rw [if_neg (by omega), bind_ok_eq] at h
    unfold shlChecked at h
    rw [if_pos (by omega)] at h
    rw [bind_error_eq, bind_error_eq] at h
    exact Except.noConfusion h
  have h2 : c ≤ W := by omega
  unfold GenNet.new at h
  rw [if_neg hcW] at h
  simp only [na_ok hc1 h2 hip, bind_ok_eq, bc_ok hc1 h2,
    mul_pow_lor_eq_add (ip / 2 ^ (W - c)) (2 ^ (W - c) - 1) (W - c)
      (by have := two_pow_pos (W - c); omega)] at h
  unfold addChecked at h
  by_cases hov : 2 ^ W ≤ ip / 2 ^ (W - c) * 2 ^ (W - c) + 1
  · rw [if_pos hov, bind_error_eq] at h
    exact Except.noConfusion h
  · rw [if_neg hov] at h
    simp only [bind_ok_eq] at h
    unfold subChecked at h
    by_cases hun : ip / 2 ^ (W - c) * 2 ^ (W - c) + (2 ^ (W - c) - 1) < 1
    · rw [if_pos hun, bind_error_eq] at h
      exact Except.noConfusion h
    · rw [if_neg hun] at h
      simp only [bind_ok_eq, pure_eq_ok] at h
      have hnet := (Except.ok.inj h).symm
      subst hnet
      refine ⟨hc1, h2, rfl, rfl, rfl, rfl, rfl, rfl, ?_, ?_⟩
      · show ip / 2 ^ (W - c) * 2 ^ (W - c) + 1 < 2 ^ W
        omega
      · show 1 ≤ ip / 2 ^ (W - c) * 2 ^ (W - c) + (2 ^ (W - c) - 1)
        omega

/-- The subnet-address formula of calc_subnet_address, for an aligned base
network address, evaluates to base plus index times the subnet size. -/
theorem calc_ok {W c t q i : Nat} (h1 : 1 ≤ c) (hct : c ≤ t) (htW : t ≤ W)
    (hi : i < 2 ^ (t - c)) :
    calc_subnet_address W (q * 2 ^ (W - c)) (2 ^ W - 2 ^ (W - c)) t i =
      .ok (q * 2 ^ (W - c) + i * 2 ^ (W - t)) := by
  have ht1 : 1 ≤ t := by omega
  have hsize : 2 ^ (t - c) * 2 ^ (W - t) = 2 ^ (W - c) := by
    rw [← Nat.pow_add]
    congr 1
    omega
  have hnum : i * 2 ^ (W - t) < 2 ^ (W - c) := by
    calc i * 2 ^ (W - t) < 2 ^ (t - c) * 2 ^ (W - t) :=
          (Nat.mul_lt_mul_right (two_pow_pos _)).mpr hi
    _ = 2 ^ (W - c) := hsize
  have hnumW : i * 2 ^ (W - t) < 2 ^ W :=
    Nat.lt_of_lt_of_le hnum (two_pow_le_two_pow (by omega))
  have hmask : wordNot W (2 ^ W - 2 ^ (W - c)) &&& (2 ^ W - 2 ^ (W - t)) =
      (2 ^ (t - c) - 1) * 2 ^ (W - t) := by
    rw [wordNot_mask (by omega : c ≤ W), mask_factor htW, and_block_mask,
      two_pow_sub_one_div (by omega : W - t ≤ W - c)]
    have he : W - c - (W - t) = t - c := by omega
    rw [he, Nat.mod_eq_of_lt (Nat.lt_of_lt_of_le
      (by have := two_pow_pos (t - c); omega : 2 ^ (t - c) - 1 < 2 ^ (t - c))
      (two_pow_le_two_pow (by omega)))]
  unfold calc_subnet_address
  simp only [sn_ok ht1 htW, bind_ok_eq, hmask]
  unfold subChecked
  rw [if_neg (by omega)]
  simp only [bind_ok_eq]
  unfold shlChecked
  rw [if_neg (by omega)]
  simp only [bind_ok_eq, pure_eq_ok]
  rw [Nat.shiftLeft_eq, Nat.mod_eq_of_lt hnumW, and_block_mask,
    Nat.mul_div_cancel _ (two_pow_pos (W - t)), Nat.mod_eq_of_lt hi,
    Nat.lor_comm, mul_pow_lor_eq_add q _ (W - c) hnum]

/-- The fuel-driven logarithm agrees with Nat.log2 whenever the fuel is at
least the argument. -/
theorem ilog2Go_eq : ∀ fuel n, n ≤ fuel → ilog2Go fuel n = Nat.log2 n := by
  intro fuel
  induction fuel with
  | zero =>
    intro n hn
    have : n = 0 := by omega
    subst this
    rw [Nat.log2]
    rfl
  | succ f ih =>
    intro n hn
    rw [Nat.log2]
    unfold ilog2Go
    by_cases h2 : 2 ≤ n
    · rw [if_pos h2, if_pos h2, ih (n / 2) (by omega)]
    · rw [if_neg h2, if_neg h2]

theorem ilog2_eq_log2 (n : Nat) : ilog2 n = Nat.log2 n :=
  ilog2Go_eq n n (Nat.le_refl n)

theorem ilog2_two_pow (k : Nat) : ilog2 (2 ^ k) = k := by
  rw [ilog2_eq_log2, Nat.log2_eq_log_two, Nat.log_pow (by omega)]

/-- The rounding step of Task::target_cidr produces exactly two to the
ceiling base-2 logarithm, for counts between 1 and 2^31. -/
theorem round_eq_clog {n : Nat} (h1 : 1 ≤ n) (h2 : n ≤ 2 ^ 31) :
    round_count n = .ok (2 ^ Nat.clog 2 n) := by
  unfold round_count
  by_cases hp : is_power_of_two n
  · rw [if_pos hp]
    have hex : ∃ k, k < 32 ∧ 2 ^ k = n := by
      have := of_decide_eq_true hp
      exact ⟨this.choose, this.choose_spec⟩
    obtain ⟨k, -, hk⟩ := hex
    subst hk
    rw [Nat.clog_pow 2 k (by omega), pure_eq_ok]
  · rw [if_neg hp]
    unfold next_power_of_two
    by_cases hn1 : n ≤ 1
    · have : n = 1 := by omega
      subst this
      exact absurd (by decide : is_power_of_two 1 = true) (by simpa using hp)
    · rw [if_neg hn1, if_pos h2]
      have hL := ilog2_eq_log2 (n - 1)
      have hlow : 2 ^ Nat.log2 (n - 1) ≤ n - 1 := Nat.log2_self_le (by omega)
      have hhigh : n - 1 < 2 ^ (Nat.log2 (n - 1) + 1) := Nat.lt_log2_self
      have hup : Nat.clog 2 n ≤ Nat.log2 (n - 1) + 1 :=
        (Nat.le_pow_iff_clog_le (by omega)).mp (by omega)
      have hdown : Nat.log2 (n - 1) + 1 ≤ Nat.clog 2 n := by
        by_contra hc
        have hle : Nat.clog 2 n ≤ Nat.log2 (n - 1) := by omega
        have := (Nat.le_pow_iff_clog_le (by omega)).mpr hle
        omega
      rw [hL]
      congr 2
      omega

/-- Task::target_cidr for counts between 1 and 2^31: base cidr plus the
ceiling base-2 logarithm of the count. -/
theorem target_cidr_ok {net : GenNet} {count : Nat} (h1 : 1 ≤ count)
    (h2 : count ≤ 2 ^ 31) :
    Task.target_cidr ⟨net, count⟩ = .ok (Nat.clog 2 count + net.cidr) := by
  unfold Task.target_cidr
  simp only [round_eq_clog h1 h2, bind_ok_eq]
  rw [if_neg (show ¬ 2 ^ Nat.clog 2 count = 0 by
    have := two_pow_pos (Nat.clog 2 count)
    omega)]
  simp only [pure_eq_ok, bind_ok_eq, ilog2_two_pow]

/-- Task::target_cidr for a zero count: the rounding coerces the count to
one and the target cidr equals the base cidr. -/
theorem target_cidr_zero (net : GenNet) :
    Task.target_cidr ⟨net, 0⟩ = .ok net.cidr := by
  show Except.ok (ilog2 1 + net.cidr) = .ok net.cidr
  rw [show ilog2 1 = 0 from rfl, Nat.zero_add]

/-- Inversion: a successful Task::target_cidr is the base cidr plus some
logarithm. -/
theorem target_cidr_ok_inv {tk : Task} {t : Nat}
    (h : tk.target_cidr = .ok t) : ∃ e, t = e + tk.network.cidr := by
  unfold Task.target_cidr at h
  rcases hnum : round_count tk.subnets with e | num
  · rw [hnum, bind_error_eq] at h
    exact Except.noConfusion h
  · rw [hnum, bind_ok_eq] at h
    by_cases hz : num = 0
    · rw [if_pos hz] at h
      simp only [throw_eq_error, bind_error_eq] at h
      exact Except.noConfusion h
    · rw [if_neg hz] at h
      simp only [pure_eq_ok, bind_ok_eq] at h
      exact ⟨ilog2 num, (Except.ok.inj h).symm⟩

/-- Inversion of a successful calc_subnet_address: the target cidr is in
range. -/
theorem calc_ok_inv {W sna sn t i v : Nat}
    (h : calc_subnet_address W sna sn t i = .ok v) : 1 ≤ t ∧ t ≤ W := by
  unfold calc_subnet_address at h
  rcases hm : sn_from_cidr_gen_bits W t with e | m
  · rw [hm, bind_error_eq] at h
    exact Except.noConfusion h
  · obtain ⟨ha, hb, -⟩ := sn_ok_inv hm
    exact ⟨ha, hb⟩

/-- The loop of target_networks bounds the target cidr as soon as it runs
one iteration. -/
theorem build_nets_cidr_bound {W sna sn t : Nat} {l : List Nat}
    {nets : List GenNet} (hl : l ≠ [])
    (h : build_nets W sna sn t l = .ok nets) : 1 ≤ t ∧ t ≤ W := by
  cases l with
  | nil => exact absurd rfl hl
  | cons i rest =>
    unfold build_nets at h
    rcases hc : calc_subnet_address W sna sn t i with e | v
    · rw [hc, bind_error_eq] at h
      exact Except.noConfusion h
    · exact calc_ok_inv hc

/-- Structure of a successful loop run: one network per index, each sized
2 ^ (W - t) and placed at base plus index times that size. -/
theorem build_nets_struct {W c t q : Nat} (h1 : 1 ≤ c) (hct : c ≤ t)
    (htW : t ≤ W) (hq : q < 2 ^ c) :
    ∀ (l : List Nat) (nets : List GenNet),
      (∀ i ∈ l, i < 2 ^ (t - c)) →
      build_nets W (q * 2 ^ (W - c)) (2 ^ W - 2 ^ (W - c)) t l = .ok nets →
      nets.length = l.length ∧
      ∀ j (hj : j < nets.length) (hj2 : j < l.length),
        (nets.get ⟨j, hj⟩).na =
          q * 2 ^ (W - c) + l.get ⟨j, hj2⟩ * 2 ^ (W - t) ∧
        (nets.get ⟨j, hj⟩).bc =
          q * 2 ^ (W - c) + l.get ⟨j, hj2⟩ * 2 ^ (W - t) +
            (2 ^ (W - t) - 1) ∧
        (nets.get ⟨j, hj⟩).cidr = t := by
  have hsize : 2 ^ (t - c) * 2 ^ (W - t) = 2 ^ (W - c) := by
    rw [← Nat.pow_add]
    congr 1
    omega
  intro l
  induction l with
  | nil =>
    intro nets _ h
    have hn : nets = [] := by
      unfold build_nets at h
      exact (Except.ok.inj h).symm
    subst hn
    exact ⟨rfl, fun j hj hj2 => absurd hj (by simp)⟩
  | cons i rest ih =>
    intro nets hmem h
    unfold build_nets at h
    have hi : i < 2 ^ (t - c) := hmem i (by simp)
    rw [calc_ok h1 hct htW hi, bind_ok_eq] at h
    rcases hnew : GenNet.new W (q * 2 ^ (W - c) + i * 2 ^ (W - t)) t
      with e | net
    · rw [hnew, bind_error_eq] at h
      exact Except.noConfusion h
    · rw [hnew, bind_ok_eq] at h
      rcases hrest : build_nets W (q * 2 ^ (W - c)) (2 ^ W - 2 ^ (W - c)) t
        rest with e | rests
      · rw [hrest, bind_error_eq] at h
        exact Except.noConfusion h
      · rw [hrest, bind_ok_eq, pure_eq_ok] at h
        have hn : nets = net :: rests := (Except.ok.inj h).symm
        subst hn
        obtain ⟨ihlen, ihget⟩ :=
          ih rests (fun x hx => hmem x (by simp [hx])) hrest
        have hnum : i * 2 ^ (W - t) < 2 ^ (W - c) := by
          calc i * 2 ^ (W - t) < 2 ^ (t - c) * 2 ^ (W - t) :=
                (Nat.mul_lt_mul_right (two_pow_pos _)).mpr hi
          _ = 2 ^ (W - c) := hsize
        have hqle : q * 2 ^ (W - c) ≤ (2 ^ c - 1) * 2 ^ (W - c) :=
          Nat.mul_le_mul_right _ (by omega)
        have hfact : (2 ^ c - 1) * 2 ^ (W - c) = 2 ^ W - 2 ^ (W - c) :=
          (mask_factor (by omega)).symm
        have hwc : 2 ^ (W - c) ≤ 2 ^ W := two_pow_le_two_pow (by omega)
        have hna_lt : q * 2 ^ (W - c) + i * 2 ^ (W - t) < 2 ^ W := by omega
        obtain ⟨-, -, -, hna, hbc, -, -, hcidr, -, -⟩ :=
          new_ok_inv hna_lt hnew
        have hrep : q * 2 ^ (W - c) + i * 2 ^ (W - t) =
            (q * 2 ^ (t - c) + i) * 2 ^ (W - t) := by
          rw [Nat.add_mul, Nat.mul_assoc, hsize]
        have halign : (q * 2 ^ (W - c) + i * 2 ^ (W - t)) / 2 ^ (W - t) *
            2 ^ (W - t) = q * 2 ^ (W - c) + i * 2 ^ (W - t) := by
          rw [hrep, Nat.mul_div_cancel _ (two_pow_pos (W - t))]
        refine ⟨by simp [ihlen], ?_⟩
        intro j hj hj2
        cases j with
        | zero =>
          refine ⟨?_, ?_, ?_⟩
          · show net.na = q * 2 ^ (W - c) + i * 2 ^ (W - t)
            rw [hna, halign]
          · show net.bc = q * 2 ^ (W - c) + i * 2 ^ (W - t) +
              (2 ^ (W - t) - 1)
            rw [hbc, hna, halign]
          · exact hcidr
        | succ j' =>
          have hj' : j' < rests.length := by
            simpa using hj
          have hj2' : j' < rest.length := by
            simpa using hj2
          simpa using ihget j' hj' hj2'

/-- Structure of a successful Task::target_networks run, for a constructed
base network: there is a target cidr t at least the base cidr, the output
has 2 ^ (t - c) entries, and entry j is the subnet of size 2 ^ (W - t)
placed j sizes after the base network address. -/
theorem target_networks_struct {W ip c count : Nat} {base : GenNet}
    {nets : List GenNet} (hip : ip < 2 ^ W)
    (hbase : GenNet.new W ip c = .ok base)
    (h : Task.target_networks W ⟨base, count⟩ = .ok nets) :
    ∃ t, c ≤ t ∧ t ≤ W ∧
      nets.length = 2 ^ (t - c) ∧
      (∀ j (hj : j < nets.length),
        (nets.get ⟨j, hj⟩).na = base.na + j * 2 ^ (W - t) ∧
        (nets.get ⟨j, hj⟩).bc = base.na + j * 2 ^ (W - t) +
          (2 ^ (W - t) - 1) ∧
        (nets.get ⟨j, hj⟩).cidr = t) ∧
      base.bc = base.na + (2 ^ (W - c) - 1) := by
  obtain ⟨hc1, hcW, -, hna, hbc, -, -, hcidr, -, -⟩ := new_ok_inv hip hbase
  unfold Task.target_networks at h
  rcases ht : Task.target_cidr ⟨base, count⟩ with e | t
  · rw [ht, bind_error_eq] at h
    exact Except.noConfusion h
  · rw [ht, bind_ok_eq] at h
    obtain ⟨e, hte0⟩ := target_cidr_ok_inv ht
    have hte : t = e + base.cidr := hte0
    by_cases hd : 32 ≤ t - base.cidr
    · rw [if_pos hd] at h
      simp only [throw_eq_error, bind_error_eq] at h
      exact Except.noConfusion h
    · rw [if_neg hd] at h
      simp only [pure_eq_ok, bind_ok_eq] at h
      rw [hcidr] at h
      rw [sn_ok hc1 hcW, bind_ok_eq] at h
      have hne : List.range (2 ^ (t - c)) ≠ [] := by
        rw [Ne, List.range_eq_nil]
        have := two_pow_pos (t - c)
        omega
      obtain ⟨ht1, htW⟩ := build_nets_cidr_bound hne h
      have hq : ip / 2 ^ (W - c) < 2 ^ c := by
        rw [Nat.div_lt_iff_lt_mul (two_pow_pos _), ← Nat.pow_add]
        calc ip < 2 ^ W := hip
        _ ≤ 2 ^ (c + (W - c)) := two_pow_le_two_pow (by omega)
      rw [hna] at h
      obtain ⟨hlen, hget⟩ := build_nets_struct hc1 (by omega) htW hq
        (List.range (2 ^ (t - c))) nets
        (fun x hx => by
          rw [List.mem_range] at hx
          exact hx) h
      refine ⟨t, by omega, htW, ?_, ?_, by rw [hbc, hna]⟩
      · rw [hlen, List.length_range]
      · intro j hj
        have hj2 : j < (List.range (2 ^ (t - c))).length := by
          rw [← hlen]
          exact hj
        obtain ⟨ha, hb, hc⟩ := hget j hj hj2
        have hr : (List.range (2 ^ (t - c))).get ⟨j, hj2⟩ = j :=
          List.get_range j hj2
        rw [hr] at ha hb
        exact ⟨by rw [ha, hna], by rw [hb, hna], hc⟩

/-- The mask computation at cidr zero: the shift amount equals the width,
which panics. -/
theorem sn_zero (W : Nat) : sn_from_cidr_gen_bits W 0 = .error .overflow := by
  unfold sn_from_cidr_gen_bits subChecked
  rw [if_neg (by omega), bind_ok_eq]
  unfold shlChecked
  rw [if_pos (by omega)]

/-- The mask computation past the width: the u8 subtraction panics. -/
theorem sn_over {W c : Nat} (h : W < c) :
    sn_from_cidr_gen_bits W c = .error .overflow := by
  unfold sn_from_cidr_gen_bits subChecked
  rw [if_pos h, bind_error_eq]

/-- Construction at cidr zero fails with the arithmetic panic. -/
theorem new_zero (W ip : Nat) : GenNet.new W ip 0 = .error .overflow := by
  unfold GenNet.new
  rw [if_neg (by omega)]
  unfold na_from_ip_and_cidr_gen
  simp only [sn_zero, bind_error_eq]
  rfl

/-- The subnet-address formula past the width fails. -/
theorem calc_over {W sna sn t i : Nat} (h : W < t) :
    calc_subnet_address W sna sn t i = .error .overflow := by
  unfold calc_subnet_address
  simp only [sn_over h, bind_error_eq]

/-- The loop fails on its first iteration when the target cidr exceeds the
width. -/
theorem build_over {W sna sn t : Nat} (h : W < t) (i : Nat) (l : List Nat) :
    build_nets W sna sn t (i :: l) = .error .overflow := by
  unfold build_nets
  simp only [calc_over h, bind_error_eq]

/-- For an in-range cidr, construction either panics on the host-range
arithmetic or succeeds; it never reports the cidr check. -/
theorem new_result_cases {W ip c : Nat} (h1 : 1 ≤ c) (h2 : c ≤ W)
    (hip : ip < 2 ^ W) :
    GenNet.new W ip c = .error .overflow ∨
      ∃ net, GenNet.new W ip c = .ok net := by
  unfold GenNet.new
  rw [if_neg (by omega)]
  simp only [na_ok h1 h2 hip, bind_ok_eq, bc_ok h1 h2,
    mul_pow_lor_eq_add (ip / 2 ^ (W - c)) (2 ^ (W - c) - 1) (W - c)
      (by have := two_pow_pos (W - c); omega)]
  unfold addChecked
  by_cases ha : 2 ^ W ≤ ip / 2 ^ (W - c) * 2 ^ (W - c) + 1
  · rw [if_pos ha]
    simp only [bind_error_eq]
    exact Or.inl rfl
  · rw [if_neg ha]
    simp only [bind_ok_eq]
    unfold subChecked
    by_cases hb : ip / 2 ^ (W - c) * 2 ^ (W - c) + (2 ^ (W - c) - 1) < 1
    · rw [if_pos hb]
      simp only [bind_error_eq]
      exact Or.inl rfl
    · rw [if_neg hb]
      simp only [bind_ok_eq, pure_eq_ok]
      exact Or.inr ⟨_, rfl⟩

/-- Re-constructing a network from its own network address and cidr
succeeds and reproduces every derived field; only the stored initial
address differs, normalized to the network address. -/
theorem new_renorm {W ip c : Nat} (hip : ip < 2 ^ W) {net : GenNet}
    (h : GenNet.new W ip c = .ok net) :
    GenNet.new W net.na net.cidr = .ok
      { initial_ip := net.na, na := net.na, bc := net.bc,
        host_from := net.host_from, host_until := net.host_until,
        cidr := net.cidr } := by
  obtain ⟨h1, h2, hinit, hna, hbc, hf, hu, hcidr, hof, hbc1⟩ :=
    new_ok_inv hip h
  have halign : net.na / 2 ^ (W - c) * 2 ^ (W - c) = net.na := by
    rw [hna, Nat.mul_div_cancel _ (two_pow_pos _)]
  have hnaW : net.na < 2 ^ W := by omega
  rw [hcidr]
  rw [new_ok h1 h2 hnaW (by rw [halign]; omega) (by rw [halign]; omega)]
  simp only [Except.ok.injEq, GenNet.mk.injEq, true_and]
  exact ⟨halign, by omega, by omega, by omega, trivial⟩

/-- Construction at full-width cidr with an all-zero or all-one address
fails on the host-range arithmetic. -/
theorem new_top_fail {W ip : Nat} (hW : 1 ≤ W) (hip : ip < 2 ^ W)
    (hend : ip = 0 ∨ ip = 2 ^ W - 1) :
    GenNet.new W ip W = .error .overflow := by
  have h2W : 2 ≤ 2 ^ W := by
    calc 2 = 2 ^ 1 := rfl
    _ ≤ 2 ^ W := two_pow_le_two_pow hW
  unfold GenNet.new
  rw [if_neg (by omega)]
  rw [na_ok hW (Nat.le_refl W) hip]
  simp only [bind_ok_eq]
  rw [bc_ok hW (Nat.le_refl W)]
  simp only [bind_ok_eq]
  rw [Nat.sub_self]
  simp only [pow_zero, Nat.div_one, Nat.mul_one, Nat.sub_self, Nat.or_zero]
  unfold addChecked
  rcases hend with h0 | h1
  · subst h0
    rw [if_neg (by omega)]
    simp only [bind_ok_eq]
    unfold subChecked
    rw [if_pos (by omega)]
    simp only [bind_error_eq]
    rfl
  · rw [h1, if_pos (by omega)]
    simp only [bind_error_eq]
    rfl

/-! The claims. -/

/-- C1: Tiling law. For every base subnet (family width 32 or 128) and
every requested count for which the partition succeeds, the produced
subnets — each computed by the shift-and-mask-or formula of
calc_subnet_address — are strictly ordered by index (so ordering by index
equals ordering by network address) with pairwise disjoint address ranges,
every range lies inside the base network, and every address of the base
network from networkAddress to broadcastAddress is covered by some
subnet's range. -/
theorem claim1_tiling {W ip c count : Nat} {base : GenNet}
    {nets : List GenNet} (_hW : W = 32 ∨ W = 128) (hip : ip < 2 ^ W)
    (hbase : GenNet.new W ip c = .ok base)
    (hrun : Task.target_networks W ⟨base, count⟩ = .ok nets) :
    (∀ j k (hj : j < nets.length) (hk : k < nets.length), j < k →
      (nets.get ⟨j, hj⟩).bc < (nets.get ⟨k, hk⟩).na) ∧
    (∀ j (hj : j < nets.length),
      (nets.get ⟨j, hj⟩).na ≤ (nets.get ⟨j, hj⟩).bc ∧
      base.na ≤ (nets.get ⟨j, hj⟩).na ∧
      (nets.get ⟨j, hj⟩).bc ≤ base.bc) ∧
    (∀ a, base.na ≤ a → a ≤ base.bc →
      ∃ j, ∃ hj : j < nets.length,
        (nets.get ⟨j, hj⟩).na ≤ a ∧ a ≤ (nets.get ⟨j, hj⟩).bc) := by
  obtain ⟨t, hct, htW, hlen, hget, hbasebc⟩ :=
    target_networks_struct hip hbase hrun
  have hsize : 2 ^ (t - c) * 2 ^ (W - t) = 2 ^ (W - c) := by
    rw [← Nat.pow_add]
    congr 1
    omega
  have hk1 : 0 < 2 ^ (W - t) := two_pow_pos _
  refine ⟨?_, ?_, ?_⟩
  · intro j k hj hk hjk
    obtain ⟨-, hjb, -⟩ := hget j hj
    obtain ⟨hka, -, -⟩ := hget k hk
    rw [hjb, hka]
    have hmul : (j + 1) * 2 ^ (W - t) ≤ k * 2 ^ (W - t) :=
      Nat.mul_le_mul_right _ (by omega)
    rw [Nat.add_mul, one_mul] at hmul
    omega
  · intro j hj
    obtain ⟨hja, hjb, -⟩ := hget j hj
    have hjlt : j < 2 ^ (t - c) := by
      rw [← hlen]
      exact hj
    have hbound : (j + 1) * 2 ^ (W - t) ≤ 2 ^ (t - c) * 2 ^ (W - t) :=
      Nat.mul_le_mul_right _ (by omega)
    rw [hsize] at hbound
    rw [Nat.add_mul, one_mul] at hbound
    rw [hja, hjb, hbasebc]
    omega
  · intro a hlo hhi
    rw [hbasebc] at hhi
    have hP : 0 < 2 ^ (W - c) := two_pow_pos _
    have hdlt : (a - base.na) / 2 ^ (W - t) < 2 ^ (t - c) := by
      rw [Nat.div_lt_iff_lt_mul hk1]
      calc a - base.na < 2 ^ (W - c) := by omega
      _ = 2 ^ (t - c) * 2 ^ (W - t) := hsize.symm
    have hj : (a - base.na) / 2 ^ (W - t) < nets.length := by
      rw [hlen]
      exact hdlt
    refine ⟨(a - base.na) / 2 ^ (W - t), hj, ?_, ?_⟩
    · obtain ⟨hja, -, -⟩ := hget _ hj
      rw [hja]
      have := Nat.div_mul_le_self (a - base.na) (2 ^ (W - t))
      omega
    · obtain ⟨-, hjb, -⟩ := hget _ hj
      rw [hjb]
      have hdm := Nat.div_add_mod (a - base.na) (2 ^ (W - t))
      have hmod := Nat.mod_lt (a - base.na) hk1
      have hcm : 2 ^ (W - t) * ((a - base.na) / 2 ^ (W - t)) =
          (a - base.na) / 2 ^ (W - t) * 2 ^ (W - t) := Nat.mul_comm _ _
      omega

/-- Witness for C1 at the concrete base 192.168.0.0/24 partitioned in 4:
the first two produced subnets have disjoint, ordered ranges. -/
theorem claim1_tiling_witness :
    (([⟨3232235520, 3232235520, 3232235583, 3232235521, 3232235582, 26⟩,
       ⟨3232235584, 3232235584, 3232235647, 3232235585, 3232235646, 26⟩,
       ⟨3232235648, 3232235648, 3232235711, 3232235649, 3232235710, 26⟩,
       ⟨3232235712, 3232235712, 3232235775, 3232235713, 3232235774, 26⟩] :
      List GenNet).get ⟨0, by decide⟩).bc <
    (([⟨3232235520, 3232235520, 3232235583, 3232235521, 3232235582, 26⟩,
       ⟨3232235584, 3232235584, 3232235647, 3232235585, 3232235646, 26⟩,
       ⟨3232235648, 3232235648, 3232235711, 3232235649, 3232235710, 26⟩,
       ⟨3232235712, 3232235712, 3232235775, 3232235713, 3232235774, 26⟩] :
      List GenNet).get ⟨1, by decide⟩).na :=
  (@claim1_tiling 32 3232235520 24 4
    ⟨3232235520, 3232235520, 3232235775, 3232235521, 3232235774, 24⟩
    [⟨3232235520, 3232235520, 3232235583, 3232235521, 3232235582, 26⟩,
     ⟨3232235584, 3232235584, 3232235647, 3232235585, 3232235646, 26⟩,
     ⟨3232235648, 3232235648, 3232235711, 3232235649, 3232235710, 26⟩,
     ⟨3232235712, 3232235712, 3232235775, 3232235713, 3232235774, 26⟩]
    (Or.inl rfl) (by decide) rfl rfl).1 0 1 (by decide) (by decide)
    (by decide)

/-- C2 (amended): Count law for requested counts from 1 up to 2^31: the
returned count is two to the ceiling of the base-2 logarithm of the
requested count — the count itself when already a power of two — it is at
least the requested count, and the target cidr exceeds the base cidr by
exactly that logarithm. Counts above 2^31 make the u32 power-of-two
rounding overflow, see the counterexample. -/
theorem claim2_count {net : GenNet} {count : Nat} (h1 : 1 ≤ count)
    (h2 : count ≤ 2 ^ 31) :
    Task.new_subnets ⟨net, count⟩ = .ok (2 ^ Nat.clog 2 count) ∧
    count ≤ 2 ^ Nat.clog 2 count ∧
    (is_power_of_two count = true → 2 ^ Nat.clog 2 count = count) ∧
    (is_power_of_two count = false → count < 2 ^ Nat.clog 2 count) ∧
    Task.target_cidr ⟨net, count⟩ = .ok (Nat.clog 2 count + net.cidr) := by
  have hclog31 : Nat.clog 2 count ≤ 31 :=
    (Nat.le_pow_iff_clog_le (by omega)).mp h2
  have hle : count ≤ 2 ^ Nat.clog 2 count := Nat.le_pow_clog (by omega) count
  refine ⟨?_, hle, ?_, ?_, target_cidr_ok h1 h2⟩
  · unfold Task.new_subnets
    rw [target_cidr_ok h1 h2]
    simp only [bind_ok_eq, Nat.add_sub_cancel]
    rw [if_neg (by omega)]
    simp only [pure_eq_ok, bind_ok_eq]
  · intro hp
    have hex : ∃ k, k < 32 ∧ 2 ^ k = count := by
      simpa using of_decide_eq_true hp
    obtain ⟨k, -, hk⟩ := hex
    subst hk
    rw [Nat.clog_pow 2 k (by omega)]
  · intro hp
    rcases Nat.lt_or_ge count (2 ^ Nat.clog 2 count) with hlt | hge
    · exact hlt
    · exfalso
      have hEq : count = 2 ^ Nat.clog 2 count := by omega
      have : is_power_of_two count = true := by
        unfold is_power_of_two
        exact decide_eq_true ⟨Nat.clog 2 count, by omega, hEq.symm⟩
      rw [hp] at this
      exact Bool.noConfusion this

/-- Witness for C2 at count 4 on a /24 base: four subnets, target cidr
26. -/
theorem claim2_count_witness :
    Task.new_subnets ⟨⟨0, 0, 3, 1, 2, 24⟩, 4⟩ = .ok 4 ∧
    (4 : Nat) ≤ 4 ∧
    Task.target_cidr ⟨⟨0, 0, 3, 1, 2, 24⟩, 4⟩ = .ok 26 := by
  have h := @claim2_count ⟨0, 0, 3, 1, 2, 24⟩ 4 (by decide) (by decide)
  have hc : Nat.clog 2 4 = 2 := Nat.clog_pow 2 2 (by omega)
  rw [hc] at h
  exact ⟨h.1, by omega, h.2.2.2.2⟩

/-- C2 counterexample: at requested count 2^31 + 1 the power-of-two
rounding overflows u32 and the computation fails instead of returning a
count, refuting the law as stated for every requestedCount at least 1. -/
theorem claim2_count_counterexample :
    (1 : Nat) ≤ 2 ^ 31 + 1 ∧
    Task.new_subnets ⟨⟨0, 0, 3, 1, 2, 24⟩, 2 ^ 31 + 1⟩ =
      .error .overflow ∧
    Task.target_cidr ⟨⟨0, 0, 3, 1, 2, 24⟩, 2 ^ 31 + 1⟩ =
      .error .overflow :=
  ⟨by omega, rfl, rfl⟩

/-- C3: when the power-of-two rounding of the requested count needs more
extra bits than the width leaves above the base cidr, the partition fails
deterministically with an error and emits no partial result. The failure
is the one the spec names InsufficientAddressSpace; the source surfaces
it as the arithmetic panic of the width subtraction. -/
theorem claim3_insufficient {W ip c count : Nat} (hip : ip < 2 ^ W)
    {base : GenNet} (hbase : GenNet.new W ip c = .ok base)
    (h1 : 1 ≤ count) (h2 : count ≤ 2 ^ 31)
    (hover : W < c + Nat.clog 2 count) :
    Task.target_networks W ⟨base, count⟩ = .error .overflow := by
  obtain ⟨hc1, hcW, -, -, -, -, -, hcidr, -, -⟩ := new_ok_inv hip hbase
  have hclog31 : Nat.clog 2 count ≤ 31 :=
    (Nat.le_pow_iff_clog_le (by omega)).mp h2
  unfold Task.target_networks
  rw [target_cidr_ok h1 h2]
  simp only [bind_ok_eq, Nat.add_sub_cancel]
  rw [if_neg (by omega)]
  simp only [pure_eq_ok, bind_ok_eq]
  rw [hcidr, sn_ok hc1 hcW]
  simp only [bind_ok_eq]
  obtain ⟨n, hn⟩ : ∃ n, 2 ^ Nat.clog 2 count = n + 1 :=
    ⟨2 ^ Nat.clog 2 count - 1, by have := two_pow_pos (Nat.clog 2 count); omega⟩
  rw [hn, List.range_succ_eq_map]
  exact build_over (by omega) 0 _

/-- Witness for C3: the concrete case of the spec — base prefix 30 in the
32-bit family, requested count 16, so target cidr 34 exceeds 32. -/
theorem claim3_insufficient_witness :
    Task.target_networks 32 ⟨⟨0, 0, 3, 1, 2, 30⟩, 16⟩ =
      .error .overflow :=
  @claim3_insufficient 32 0 30 16 (by decide) ⟨0, 0, 3, 1, 2, 30⟩ rfl
    (by decide) (by decide)
    (by
      have hc : Nat.clog 2 16 = 4 := Nat.clog_pow 2 4 (by omega)
      omega)

/-- C4 (code bug): the claim says construction at full-width cidr always
succeeds and the host-range boundary arithmetic never surfaces an
overflow; but GenNet::new computes networkAddress + 1 and
broadcastAddress - 1 unconditionally, so at cidr 32 the all-ones address
overflows the increment and the all-zero address underflows the
decrement, and construction panics. At cidr 31 (and at cidr 32 away from
the extremes) construction does succeed. -/
theorem claim4_hostrange_bug :
    GenNet.new 32 4294967295 32 = .error .overflow ∧
    GenNet.new 32 0 32 = .error .overflow ∧
    GenNet.new 32 4294967294 31 =
      .ok ⟨4294967294, 4294967294, 4294967295, 4294967295, 4294967294, 31⟩ ∧
    GenNet.new 32 0 31 = .ok ⟨0, 0, 1, 1, 0, 31⟩ ∧
    GenNet.new 128 (2 ^ 128 - 1) 128 = .error .overflow :=
  ⟨rfl, rfl, rfl, rfl, rfl⟩

/-- C5 counterexample: the claim says construction succeeds for every
prefix length from 0 to W, but at prefix length 0 the mask computation
shifts by the full width and panics. -/
theorem claim5_invalid_cidr_counterexample :
    GenNet.new 32 0 0 = .error .overflow ∧
    GenNet.new 128 0 0 = .error .overflow :=
  ⟨rfl, rfl⟩

/-- C5 (amended): construction fails with the explicit cidr check exactly
when the prefix length exceeds W; it succeeds for every prefix length
from 1 to W - 1; at prefix length 0 the mask shift overflows; at prefix
length W it succeeds unless the address is all-zeros or all-ones, where
the host-range arithmetic overflows instead. -/
theorem claim5_construct_amended {W ip c : Nat} (hW : 1 ≤ W)
    (hip : ip < 2 ^ W) :
    (GenNet.new W ip c = .error .invalidCidr ↔ W < c) ∧
    (1 ≤ c → c + 1 ≤ W → ∃ net, GenNet.new W ip c = .ok net) ∧
    GenNet.new W ip 0 = .error .overflow ∧
    (1 ≤ ip → ip + 1 < 2 ^ W → ∃ net, GenNet.new W ip W = .ok net) ∧
    GenNet.new W 0 W = .error .overflow ∧
    GenNet.new W (2 ^ W - 1) W = .error .overflow := by
  refine ⟨⟨?_, ?_⟩, ?_, new_zero W ip, ?_,
    new_top_fail hW (two_pow_pos W) (Or.inl rfl),
    new_top_fail hW (by have := two_pow_pos W; omega) (Or.inr rfl)⟩
  · intro h
    by_contra hcW
    by_cases hc0 : c = 0
    · subst hc0
      rw [new_zero W ip] at h
      exact NetError.noConfusion (Except.error.inj h)
    · rcases @new_result_cases W ip c (by omega) (by omega) hip
        with hov | ⟨net, hok⟩
      · rw [hov] at h
        exact NetError.noConfusion (Except.error.inj h)
      · rw [hok] at h
        exact Except.noConfusion h
  · intro hcW
    unfold GenNet.new
    rw [if_pos hcW]
    rfl
  · intro hc1 hcW1
    have hP2 : 2 ≤ 2 ^ (W - c) := by
      calc 2 = 2 ^ 1 := rfl
      _ ≤ 2 ^ (W - c) := two_pow_le_two_pow (by omega)
    have hq : ip / 2 ^ (W - c) < 2 ^ c := by
      rw [Nat.div_lt_iff_lt_mul (two_pow_pos _), ← Nat.pow_add]
      calc ip < 2 ^ W := hip
      _ ≤ 2 ^ (c + (W - c)) := two_pow_le_two_pow (by omega)
    have hqle : ip / 2 ^ (W - c) * 2 ^ (W - c) ≤
        (2 ^ c - 1) * 2 ^ (W - c) := Nat.mul_le_mul_right _ (by omega)
    have hfact : (2 ^ c - 1) * 2 ^ (W - c) = 2 ^ W - 2 ^ (W - c) :=
      (mask_factor (by omega)).symm
    have hWc : 2 ^ (W - c) ≤ 2 ^ W := two_pow_le_two_pow (by omega)
    exact ⟨_, new_ok hc1 (by omega) hip (by omega) (by omega)⟩
  · intro hip1 hip2
    have he : W - W = 0 := Nat.sub_self W
    refine ⟨_, new_ok hW (Nat.le_refl W) hip ?_ ?_⟩
    · rw [he]
      simp only [pow_zero, Nat.div_one, Nat.mul_one]
      exact hip2
    · rw [he]
      simp only [pow_zero, Nat.div_one, Nat.mul_one]
      omega

/-- Witness for C5 (amended): at width 32 and address 5, cidr 0 fails
with the arithmetic panic, and cidr 24 succeeds. -/
theorem claim5_construct_amended_witness :
    (1 : Nat) ≤ 32 ∧ (5 : Nat) < 2 ^ 32 ∧
    GenNet.new 32 5 0 = .error .overflow ∧
    (∃ net, GenNet.new 32 5 24 = .ok net) := by
  have h := @claim5_construct_amended 32 5 24 (by decide) (by decide)
  exact ⟨by decide, by decide, h.2.2.1, h.2.1 (by decide) (by decide)⟩

/-- C6 counterexample: the claim says the mask at prefix length 0 is the
all-zero word; the code instead panics there, because the shift amount
equals the width. -/
theorem claim6_mask_counterexample :
    sn_from_cidr_gen_bits 32 0 = .error .overflow ∧
    sn_from_cidr_gen_bits 128 0 = .error .overflow :=
  ⟨rfl, rfl⟩

/-- C6 (amended): for every prefix length from 1 to W the computed subnet
mask is the word whose top prefixLength bits are one and whose remaining
W - prefixLength bits are zero; in particular mask(W) is the all-ones
word. At prefix length 0 the computation fails instead of producing the
all-zero word (see the counterexample). -/
theorem claim6_mask_amended {W c : Nat} (h1 : 1 ≤ c) (h2 : c ≤ W) :
    sn_from_cidr_gen_bits W c = .ok (2 ^ W - 2 ^ (W - c)) ∧
    (∀ j, (2 ^ W - 2 ^ (W - c)).testBit j =
      (decide (W - c ≤ j) && decide (j < W))) ∧
    (c = W → 2 ^ W - 2 ^ (W - c) = 2 ^ W - 1) := by
  refine ⟨sn_ok h1 h2, ?_, ?_⟩
  · intro j
    rw [mask_factor h2,
      show (2 ^ c - 1) * 2 ^ (W - c) = (2 ^ c - 1) <<< (W - c) from
        (Nat.shiftLeft_eq _ _).symm,
      Nat.testBit_shiftLeft, Nat.testBit_two_pow_sub_one]
    by_cases hjc : W - c ≤ j
    · have hg : j ≥ W - c := hjc
      by_cases hjW : j < W
      · have hx : j - (W - c) < c := by omega
        simp [hg, hjW, hx]
      · have hx : ¬ j - (W - c) < c := by omega
        simp [hg, hjW, hx]
    · have hg : ¬ j ≥ W - c := hjc
      simp [hg, hjc]
  · intro hcW
    subst hcW
    rw [Nat.sub_self, pow_zero]

/-- Witness for C6 (amended) at width 32, prefix length 26. -/
theorem claim6_mask_amended_witness :
    (1 : Nat) ≤ 26 ∧ (26 : Nat) ≤ 32 ∧
    sn_from_cidr_gen_bits 32 26 = .ok 4294967232 :=
  ⟨by decide, by decide, (@claim6_mask_amended 32 26 (by decide) (by decide)).1⟩

/-- C7: Idempotence. Re-constructing a subnet from its own network address
and prefix length succeeds and yields a value-equal subnet: same network
address, broadcast address, host range and cidr (hence the same derived
subnet mask). -/
theorem claim7_idempotent {W ip c : Nat} (hip : ip < 2 ^ W)
    {net : GenNet} (h : GenNet.new W ip c = .ok net) :
    GenNet.new W net.na net.cidr = .ok
      { initial_ip := net.na, na := net.na, bc := net.bc,
        host_from := net.host_from, host_until := net.host_until,
        cidr := net.cidr } ∧
    GenNet.subnetmask_bits W
      { initial_ip := net.na, na := net.na, bc := net.bc,
        host_from := net.host_from, host_until := net.host_until,
        cidr := net.cidr } = GenNet.subnetmask_bits W net :=
  ⟨new_renorm hip h, rfl⟩

/-- Witness for C7: re-constructing 192.168.1.0/24 obtained from the
address 192.168.1.1 reproduces the same network. -/
theorem claim7_idempotent_witness :
    (3232235777 : Nat) < 2 ^ 32 ∧
    GenNet.new 32 3232235776 24 =
      .ok ⟨3232235776, 3232235776, 3232236031, 3232235777, 3232236030, 24⟩ := by
  have h := @claim7_idempotent 32 3232235777 24 (by decide)
    ⟨3232235777, 3232235776, 3232236031, 3232235777, 3232236030, 24⟩ rfl
  exact ⟨by decide, h.1⟩

/-- C8: Concrete case A. Partitioning 192.168.0.0/24 into 4 yields target
cidr 26, actual count 4, and the four subnets 192.168.0.0, 192.168.0.64,
192.168.0.128, 192.168.0.192 in that order, each with prefix length 26.
All addresses appear as 32-bit words: 192.168.0.0 is 3232235520. -/
theorem claim8_concrete :
    GenNet.new 32 3232235520 24 =
      .ok ⟨3232235520, 3232235520, 3232235775, 3232235521, 3232235774, 24⟩ ∧
    Task.target_cidr ⟨⟨3232235520, 3232235520, 3232235775, 3232235521,
      3232235774, 24⟩, 4⟩ = .ok 26 ∧
    Task.new_subnets ⟨⟨3232235520, 3232235520, 3232235775, 3232235521,
      3232235774, 24⟩, 4⟩ = .ok 4 ∧
    Task.target_networks 32 ⟨⟨3232235520, 3232235520, 3232235775,
      3232235521, 3232235774, 24⟩, 4⟩ =
      .ok [⟨3232235520, 3232235520, 3232235583, 3232235521, 3232235582, 26⟩,
           ⟨3232235584, 3232235584, 3232235647, 3232235585, 3232235646, 26⟩,
           ⟨3232235648, 3232235648, 3232235711, 3232235649, 3232235710, 26⟩,
           ⟨3232235712, 3232235712, 3232235775, 3232235713, 3232235774, 26⟩] :=
  ⟨rfl, rfl, rfl, rfl⟩

/-- C9: a requested count of zero is not rejected: the power-of-two
rounding coerces it to one, the target cidr equals the base cidr, the
actual count is one, and the single produced subnet is value-equal to the
base network (network address, broadcast, host range and cidr all agree;
its stored initial address is the normalized network address). -/
theorem claim9_zero_count {W ip c : Nat} (hip : ip < 2 ^ W)
    {base : GenNet} (hbase : GenNet.new W ip c = .ok base) :
    Task.target_cidr ⟨base, 0⟩ = .ok base.cidr ∧
    Task.new_subnets ⟨base, 0⟩ = .ok 1 ∧
    Task.target_networks W ⟨base, 0⟩ = .ok
      [{ initial_ip := base.na, na := base.na, bc := base.bc,
         host_from := base.host_from, host_until := base.host_until,
         cidr := base.cidr }] := by
  obtain ⟨hc1, hcW, -, hna, -, -, -, hcidr, -, -⟩ := new_ok_inv hip hbase
  have hq : ip / 2 ^ (W - c) < 2 ^ c := by
    rw [Nat.div_lt_iff_lt_mul (two_pow_pos _), ← Nat.pow_add]
    calc ip < 2 ^ W := hip
    _ ≤ 2 ^ (c + (W - c)) := two_pow_le_two_pow (by omega)
  have hcalc : calc_subnet_address W base.na (2 ^ W - 2 ^ (W - c)) c 0 =
      .ok base.na := by
    have h0 := @calc_ok W c c (ip / 2 ^ (W - c)) 0 hc1 (Nat.le_refl c) hcW
      (by have := two_pow_pos (c - c); omega)
    rw [← hna] at h0
    simpa using h0
  have hnew2 : GenNet.new W base.na c = .ok
      { initial_ip := base.na, na := base.na, bc := base.bc,
        host_from := base.host_from, host_until := base.host_until,
        cidr := c } := by
    have hx := new_renorm hip hbase
    rw [hcidr] at hx
    exact hx
  refine ⟨target_cidr_zero base, ?_, ?_⟩
  · unfold Task.new_subnets
    rw [target_cidr_zero base]
    simp only [bind_ok_eq, Nat.sub_self]
    rw [if_neg (by omega)]
    simp only [pure_eq_ok, bind_ok_eq]
    rfl
  · unfold Task.target_networks
    rw [target_cidr_zero base]
    simp only [bind_ok_eq, Nat.sub_self]
    rw [if_neg (by omega)]
    simp only [pure_eq_ok, bind_ok_eq]
    rw [hcidr, sn_ok hc1 hcW]
    simp only [bind_ok_eq, pow_zero]
    rw [show List.range 1 = [0] from rfl]
    unfold build_nets
    rw [hcalc]
    simp only [bind_ok_eq]
    rw [hnew2]
    simp only [bind_ok_eq]
    unfold build_nets
    simp only [bind_ok_eq, pure_eq_ok]

/-- Witness for C9 on the base 192.168.0.0/24: partitioning with count 0
returns the base network itself. -/
theorem claim9_zero_count_witness :
    (3232235520 : Nat) < 2 ^ 32 ∧
    Task.target_networks 32 ⟨⟨3232235520, 3232235520, 3232235775,
      3232235521, 3232235774, 24⟩, 0⟩ =
      .ok [⟨3232235520, 3232235520, 3232235775, 3232235521,
        3232235774, 24⟩] := by
  have h := @claim9_zero_count 32 3232235520 24 (by decide)
    ⟨3232235520, 3232235520, 3232235775, 3232235521, 3232235774, 24⟩ rfl
  exact ⟨by decide, h.2.2⟩

/-- C10: the constructed network stores the given address verbatim —
initial_ip is exactly the input address, even when it has host bits set,
while normalization only shapes the derived network address. -/
theorem claim10_initial_ip {W ip c : Nat} (hip : ip < 2 ^ W)
    {net : GenNet} (h : GenNet.new W ip c = .ok net) :
    net.initial_ip = ip ∧
    net.na = ip / 2 ^ (W - c) * 2 ^ (W - c) := by
  obtain ⟨-, -, hinit, hna, -, -, -, -, -, -⟩ := new_ok_inv hip h
  exact ⟨hinit, hna⟩

/-- Witness for C10 at 192.168.1.1/24: the stored address keeps its host
bits and differs from the derived network address. -/
theorem claim10_initial_ip_witness :
    (3232235777 : Nat) < 2 ^ 32 ∧
    ((⟨3232235777, 3232235776, 3232236031, 3232235777, 3232236030, 24⟩ :
      GenNet).initial_ip = 3232235777 ∧
    (⟨3232235777, 3232235776, 3232236031, 3232235777, 3232236030, 24⟩ :
      GenNet).na = 3232235777 / 2 ^ (32 - 24) * 2 ^ (32 - 24)) ∧
    (⟨3232235777, 3232235776, 3232236031, 3232235777, 3232236030, 24⟩ :
      GenNet).na ≠ 3232235777 :=
  ⟨by decide,
    @claim10_initial_ip 32 3232235777 24 (by decide)
      ⟨3232235777, 3232235776, 3232236031, 3232235777, 3232236030, 24⟩ rfl,
    by decide⟩

example : sn_from_cidr_gen_bits 32 24 = .ok 4294967040 := rfl

example : sn_from_cidr_gen_bits 32 0 = .error .overflow := rfl

example : sn_from_cidr_gen_bits 32 34 = .error .overflow := rfl

example : GenNet.new 32 3232235777 24 =
    .ok ⟨3232235777, 3232235776, 3232236031, 3232235777, 3232236030, 24⟩ := rfl

example : GenNet.new 32 4294967295 32 = .error .overflow := rfl

example : GenNet.new 32 0 32 = .error .overflow := rfl

example : GenNet.new 32 5 33 = .error .invalidCidr := rfl

example :
    Task.target_networks 32 ⟨⟨3232235520, 3232235520, 3232235775, 3232235521,
      3232235774, 24⟩, 4⟩ =
    .ok [⟨3232235520, 3232235520, 3232235583, 3232235521, 3232235582, 26⟩,
         ⟨3232235584, 3232235584, 3232235647, 3232235585, 3232235646, 26⟩,
         ⟨3232235648, 3232235648, 3232235711, 3232235649, 3232235710, 26⟩,
         ⟨3232235712, 3232235712, 3232235775, 3232235713, 3232235774, 26⟩] := rfl

example : Task.target_cidr ⟨⟨0, 0, 3, 1, 2, 30⟩, 16⟩ = .ok 34 := rfl

example : Task.target_networks 32 ⟨⟨0, 0, 3, 1, 2, 30⟩, 16⟩ =
    .error .overflow := rfl

example : Task.new_subnets ⟨⟨0, 0, 3, 1, 2, 24⟩, 2147483649⟩ =
    .error .overflow := rfl

example : Task.new_subnets ⟨⟨0, 0, 3, 1, 2, 24⟩, 0⟩ = .ok 1 := rfl

end Subnetting
